import Mathlib

/-!
Shallow embedding of the core of `hash.py` (class `HashCalculator`): the
multi-algorithm streaming digest engine (`calculate_file_hash`), the checksum
manifest parser (`parse_hash_file`), the comparison engine (`compare_files`),
the auto-verify workflow (`auto_verify_files`) and the concurrent dispatch in
`process_files`.  Python strings are modelled as `List Char`, bytes as `Nat`
(values below 256), dictionaries as association lists in insertion order, and
raised exceptions as `Except` errors.  File-system access, globbing and the
per-algorithm digest primitives are passed in as explicit parameters.
-/

set_option maxRecDepth 8192

namespace HashPy

/-- The ASCII characters Python's `str.strip()` / `str.split()` (with no
argument) treat as whitespace. -/
def pyIsSpace (c : Char) : Bool :=
  c = ' ' || c = '\t' || c = '\n' || c = '\r' || c = '\x0b' || c = '\x0c'

/-- `line.strip()`: remove leading and trailing whitespace. -/
def pyStrip (cs : List Char) : List Char :=
  ((cs.dropWhile pyIsSpace).reverse.dropWhile pyIsSpace).reverse

/-- Worker for `pySplit`; `acc` holds the current word reversed. -/
def pySplitAux : List Char → List Char → List (List Char)
  | [], acc => if acc.isEmpty then [] else [acc.reverse]
  | c :: cs, acc =>
    if pyIsSpace c then
      if acc.isEmpty then pySplitAux cs [] else acc.reverse :: pySplitAux cs []
    else pySplitAux cs (c :: acc)

/-- `line.split()`: split on runs of whitespace, discarding empty tokens. -/
def pySplit (cs : List Char) : List (List Char) := pySplitAux cs []

/-- `line.lower()` (ASCII fragment, which is all the program compares). -/
def pyToLower (cs : List Char) : List Char := cs.map Char.toLower

/-- `' ' in line` (the space character only, as written in the source). -/
def containsSpace (cs : List Char) : Bool := cs.any (fun c => c = ' ')

/-- `os.path.splitext(p)[0]`: drop the final `.ext` of the basename, unless
every character of the basename before that dot is itself a dot. -/
def splitextBase (name : List Char) : List Char :=
  let revBase := name.reverse.takeWhile (fun c => c ≠ '/')
  match revBase.dropWhile (fun c => c ≠ '.') with
  | [] => name
  | _ :: stemRev =>
    if stemRev.any (fun c => c ≠ '.') then
      name.take (name.length - ((revBase.takeWhile (fun c => c ≠ '.')).length + 1))
    else name

/-- One parsed manifest entry: `{'filename': ..., 'hash': ..., 'binary': ...}`. -/
structure HashEntry where
  filename : List Char
  hash : List Char
  binary : Bool
deriving DecidableEq, Repr

/-- `if filename.startswith('*')`: strip the sigil and report binary mode. -/
def stripStar (fn : List Char) : List Char × Bool :=
  match fn with
  | '*' :: rest => (rest, true)
  | _ => (fn, false)

/-- The shared per-line parse of `parse_hash_file` for a line containing a
space: `hash_value, *name_parts = line.split()`, filename rejoined with
`' '.join(name_parts)`, then the leading `*` stripped into the binary flag. -/
def gnuParseLine (line : List Char) : HashEntry :=
  match pySplit line with
  | [] => ⟨[], [], false⟩
  | hv :: nameParts =>
    let p := stripStar (List.intercalate [' '] nameParts)
    ⟨p.1, pyToLower hv, p.2⟩

/-- `parse_hash_file` (hash.py lines 304-360).  The file's raw lines are given
as `fileLines`; the manifest's own name `hashFileName` supplies the target for
the bare-hash form via `os.path.splitext`. -/
def parse_hash_file (hashFileName : List Char) (fileLines : List (List Char)) :
    List HashEntry :=
  let targetFile := splitextBase hashFileName
  let lines := (fileLines.map pyStrip).filter (fun l => !l.isEmpty)
  match lines with
  | [line] =>
    if containsSpace line then [gnuParseLine line]
    else [⟨targetFile, pyToLower line, false⟩]
  | _ =>
    lines.filterMap (fun line =>
      if containsSpace line then some (gnuParseLine line) else none)

/-- Worker for `chunksOf`; the fuel bounds the number of reads and is at
least the byte count, so it never runs out on a reachable state. -/
def chunksOfAux : Nat → Nat → List Nat → List (List Nat)
  | _, _, [] => []
  | 0, _, _ :: _ => []
  | fuel + 1, n, b :: bs =>
    if n = 0 then []
    else (b :: bs).take n :: chunksOfAux fuel n (bs.drop (n - 1))

/-- Successive chunks returned by `f.read(n)` / `mm.read(n)` until `b''`.
`read(0)` returns `b''` at once, so a zero chunk size absorbs nothing. -/
def chunksOf (n : Nat) (bs : List Nat) : List (List Nat) :=
  chunksOfAux bs.length n bs

/-- All bytes fed to the digest accumulators by the chunked read loop. -/
def absorbedBytes (bufSize : Nat) (content : List Nat) : List Nat :=
  List.flatten (chunksOf bufSize content)

end HashPy

namespace MD5

/-! The MD5 algorithm (RFC 1321), the digest primitive behind `hashlib.md5`,
over byte lists.  Words are `Nat` reduced modulo `2 ^ 32`. -/

def M32 : Nat := 4294967296

def add32 (a b : Nat) : Nat := (a + b) % M32

def rotl32 (x n : Nat) : Nat := ((x <<< n) % M32) ||| (x >>> (32 - n))

def kTable : List Nat :=
  [0xd76aa478, 0xe8c7b756, 0x242070db, 0xc1bdceee,
   0xf57c0faf, 0x4787c62a, 0xa8304613, 0xfd469501,
   0x698098d8, 0x8b44f7af, 0xffff5bb1, 0x895cd7be,
   0x6b901122, 0xfd987193, 0xa679438e, 0x49b40821,
   0xf61e2562, 0xc040b340, 0x265e5a51, 0xe9b6c7aa,
   0xd62f105d, 0x02441453, 0xd8a1e681, 0xe7d3fbc8,
   0x21e1cde6, 0xc33707d6, 0xf4d50d87, 0x455a14ed,
   0xa9e3e905, 0xfcefa3f8, 0x676f02d9, 0x8d2a4c8a,
   0xfffa3942, 0x8771f681, 0x6d9d6122, 0xfde5380c,
   0xa4beea44, 0x4bdecfa9, 0xf6bb4b60, 0xbebfbc70,
   0x289b7ec6, 0xeaa127fa, 0xd4ef3085, 0x04881d05,
   0xd9d4d039, 0xe6db99e5, 0x1fa27cf8, 0xc4ac5665,
   0xf4292244, 0x432aff97, 0xab9423a7, 0xfc93a039,
   0x655b59c3, 0x8f0ccc92, 0xffeff47d, 0x85845dd1,
   0x6fa87e4f, 0xfe2ce6e0, 0xa3014314, 0x4e0811a1,
   0xf7537e82, 0xbd3af235, 0x2ad7d2bb, 0xeb86d391]

def sTable : List Nat :=
  [7, 12, 17, 22, 7, 12, 17, 22, 7, 12, 17, 22, 7, 12, 17, 22,
   5, 9, 14, 20, 5, 9, 14, 20, 5, 9, 14, 20, 5, 9, 14, 20,
   4, 11, 16, 23, 4, 11, 16, 23, 4, 11, 16, 23, 4, 11, 16, 23,
   6, 10, 15, 21, 6, 10, 15, 21, 6, 10, 15, 21, 6, 10, 15, 21]

def fround (i b c d : Nat) : Nat :=
  if i < 16 then (b &&& c) ||| ((b ^^^ 0xffffffff) &&& d)
  else if i < 32 then (d &&& b) ||| ((d ^^^ 0xffffffff) &&& c)
  else if i < 48 then b ^^^ c ^^^ d
  else c ^^^ (b ||| (d ^^^ 0xffffffff))

def gIndex (i : Nat) : Nat :=
  if i < 16 then i
  else if i < 32 then (5 * i + 1) % 16
  else if i < 48 then (3 * i + 5) % 16
  else (7 * i) % 16

/-- Little-endian 32-bit word `j` of a 64-byte block. -/
def leWord (block : List Nat) (j : Nat) : Nat :=
  block.getD (4 * j) 0 + 256 * block.getD (4 * j + 1) 0 +
    65536 * block.getD (4 * j + 2) 0 + 16777216 * block.getD (4 * j + 3) 0

structure St where
  a : Nat
  b : Nat
  c : Nat
  d : Nat

def initSt : St := ⟨0x67452301, 0xefcdab89, 0x98badcfe, 0x10325476⟩

def step (block : List Nat) (st : St) (i : Nat) : St :=
  let f := fround i st.b st.c st.d
  let tmp := add32 (add32 (add32 st.a f) (kTable.getD i 0)) (leWord block (gIndex i))
  ⟨st.d, add32 st.b (rotl32 tmp (sTable.getD i 0)), st.b, st.c⟩

def processBlock (st : St) (block : List Nat) : St :=
  let r := (List.range 64).foldl (step block) st
  ⟨add32 st.a r.a, add32 st.b r.b, add32 st.c r.c, add32 st.d r.d⟩

/-- `k` little-endian bytes of `v`. -/
def leBytes : Nat → Nat → List Nat
  | 0, _ => []
  | k + 1, v => v % 256 :: leBytes k (v / 256)

/-- Append `0x80`, zero padding to 56 mod 64, then the 64-bit bit length. -/
def padMessage (msg : List Nat) : List Nat :=
  let len := msg.length
  let zeros := (119 - len % 64) % 64
  msg ++ 0x80 :: (List.replicate zeros 0 ++ leBytes 8 ((8 * len) % 2 ^ 64))

def md5Bytes (msg : List Nat) : List Nat :=
  let final := (HashPy.chunksOf 64 (padMessage msg)).foldl processBlock initSt
  leBytes 4 final.a ++ leBytes 4 final.b ++ leBytes 4 final.c ++ leBytes 4 final.d

def hexDigit (n : Nat) : Char :=
  if n < 10 then Char.ofNat (48 + n) else Char.ofNat (87 + n)

def byteHex (b : Nat) : List Char := [hexDigit (b / 16), hexDigit (b % 16)]

def md5HexChars (msg : List Nat) : List Char :=
  List.flatten ((md5Bytes msg).map byteHex)

/-- `hashlib.md5(msg).hexdigest()`. -/
def md5Hex (msg : List Nat) : String := String.mk (md5HexChars msg)

end MD5

namespace HashPy

/-! ### The streaming digest engine: `calculate_file_hash` (lines 168-202) -/

/-- One `hashlib` digest primitive.  An accumulator created by `func()` and
fed chunks by `update` is modelled by the list of bytes absorbed so far;
`digest` is the final `hexdigest()` over those bytes. -/
structure HashAlgo where
  digest : List Nat → String

/-- The `performance` section of the configuration, as consumed here. -/
structure PerfConfig where
  use_mmap : Bool
  buffer_size : Nat

/-- A readable file: its bytes, and whether `mmap.mmap` succeeds on it.
(`mmapOk = false` models the platform raising from the `mmap.mmap` call.) -/
structure FileState where
  content : List Nat
  mmapOk : Bool

/-- A raised exception escaping `calculate_file_hash` (line 200 `raise`). -/
inductive HashErr
  | ioError
deriving DecidableEq, Repr

/-- `calculate_file_hash`: when `use_mmap` is set and the file is non-empty
the bytes are read through `mmap`, otherwise through buffered `f.read`; both
loops feed the same `buffer_size` chunks to every accumulator.  An exception
inside the `with` block (in particular a failing `mmap.mmap`) is logged and
re-raised — there is no fallback from mmap to buffered reads.  The
`show_progress` branches differ only in the progress bar, not in the bytes
absorbed. -/
def calculate_file_hash (cfg : PerfConfig) (algos : List (String × HashAlgo))
    (file : FileState) : Except HashErr (List (String × String)) :=
  if cfg.use_mmap = true ∧ 0 < file.content.length then
    if file.mmapOk then
      .ok (algos.map fun p => (p.1, p.2.digest (absorbedBytes cfg.buffer_size file.content)))
    else .error .ioError
  else
    .ok (algos.map fun p => (p.1, p.2.digest (absorbedBytes cfg.buffer_size file.content)))

/-! ### The algorithm registry: `setup_algorithms` (lines 161-166) -/

/-- `s.lower()` on a whole string. -/
def strLower (s : String) : String := String.mk (s.data.map Char.toLower)

/-- `setup_algorithms`: keep each configured algorithm name whose `enabled`
flag is true and for which `hasattr(hashlib, algo.lower())` holds
(`hashlibAvailable` is the set of lowercase names `hashlib` exposes).  The
function only filters — its body contains no `raise`, so it cannot fail; we
model the keys of the resulting `hash_funcs` dict in insertion order. -/
def setup_algorithms (hashlibAvailable : List String)
    (algoConfig : List (String × Bool)) : List String :=
  algoConfig.filterMap fun p =>
    if p.2 && hashlibAvailable.contains (strLower p.1) then some p.1 else none

/-! ### The comparison engine: `compare_files` (lines 204-263) -/

/-- Wildcard expansion (lines 207-211): patterns with no matches are dropped,
matches of each pattern are appended in order. -/
def expandGlobs (globMatch : String → List String) (patterns : List String) :
    List String :=
  patterns.foldl (fun acc p => let m := globMatch p; if m.isEmpty then acc else acc ++ m) []

/-- An exception escaping `compare_files`: the explicit `ValueError` for
fewer than two files, a re-raised per-file hashing error (line 230), or the
`KeyError` from `hashes[ref_file]` at line 235. -/
inductive CompareErr
  | insufficientFiles
  | hashFailed (file : String)
  | keyError (file : String)
deriving DecidableEq, Repr

/-- One element of `results['comparisons']`. -/
structure Comparison where
  file : String
  hashes : List (String × String)
  algoMatches : List (String × Bool)
  mismatches : List String
deriving DecidableEq, Repr

/-- The `results` dict returned by `compare_files`. -/
structure CompareResult where
  refFile : String
  refHashes : List (String × String)
  comparisons : List Comparison
  all_match : Bool
deriving DecidableEq, Repr

/-- The hash-computing loop (lines 223-231): `hashOf f = none` models
`calculate_file_hash` raising on `f`.  On failure the error is re-raised
unless `ignore_errors` is set, in which case the file is skipped and is
absent from the resulting dict. -/
def computeHashes (ignoreErrors : Bool) (hashOf : String → Option (String → String)) :
    List String → Except CompareErr (List (String × (String → String)))
  | [] => .ok []
  | f :: fs =>
    match hashOf f with
    | some d => (computeHashes ignoreErrors hashOf fs).map (fun rest => (f, d) :: rest)
    | none =>
      if ignoreErrors then computeHashes ignoreErrors hashOf fs
      else .error (.hashFailed f)

/-- Dict lookup `hashes[f]` / membership test `f in hashes`. -/
def lookupHash : List (String × (String → String)) → String → Option (String → String)
  | [], _ => none
  | p :: ps, f => if p.1 == f then some p.2 else lookupHash ps f

/-- `os.path.basename`. -/
def basename (s : String) : String :=
  String.mk ((s.data.reverse.takeWhile (fun c => c ≠ '/')).reverse)

/-- The per-candidate block of lines 242-259: one matches entry per enabled
algorithm, and a formatted description for each mismatch.  `detailFormat`
stands for the configured `comparison.detail_format` template. -/
def buildComparison (algos : List String)
    (detailFormat : String → String → String → String)
    (refFile : String) (refD : String → String) (f : String) (fD : String → String) :
    Comparison where
  file := f
  hashes := algos.map fun a => (a, fD a)
  algoMatches := algos.map fun a => (a, refD a == fD a)
  mismatches := algos.filterMap fun a =>
    if refD a == fD a then none else some (detailFormat (basename refFile) (basename f) a)

/-- `compare_files`: expand the patterns, require at least two files, hash
them all (honouring `ignore_errors`), take the first expanded path as the
reference, look its digests up in the computed dict, then compare every later
file that was successfully hashed.  `results['all_match']` starts true and is
set false at each mismatching algorithm, mirrored here by the fold. -/
def compare_files (ignoreErrors : Bool) (algos : List String)
    (detailFormat : String → String → String → String)
    (globMatch : String → List String) (hashOf : String → Option (String → String))
    (files : List String) : Except CompareErr CompareResult :=
  let expanded := expandGlobs globMatch files
  if expanded.length < 2 then .error .insufficientFiles
  else
    match computeHashes ignoreErrors hashOf expanded with
    | .error e => .error e
    | .ok hs =>
      let refFile := expanded.headD ""
      match lookupHash hs refFile with
      | none => .error (.keyError refFile)
      | some refD =>
        let comps := expanded.tail.filterMap fun f =>
          (lookupHash hs f).map (buildComparison algos detailFormat refFile refD f)
        let allMatch := comps.foldl
          (fun b c => c.algoMatches.foldl (fun b2 p => if p.2 then b2 else false) b) true
        .ok { refFile := refFile
            , refHashes := algos.map (fun a => (a, refD a))
            , comparisons := comps
            , all_match := allMatch }

/-! ### The auto-verify workflow: `auto_verify_files` (lines 362-426) -/

/-- How one manifest entry fares inside the entry loop (lines 395-418). -/
inductive VerifyOutcome
  | missingTarget
  | matched
  | mismatched
deriving DecidableEq, Repr

/-- The body of the entry loop: a missing target prints a warning, bumps
`fail_count` and `continue`s; otherwise the file is hashed with buffered
chunked reads and the lowercased hex digest is compared with the declared
hash. -/
def verifyEntry (fileExists : List Char → Bool) (contentOf : List Char → List Nat)
    (hashFn : List Nat → List Char) (bufSize : Nat) (e : HashEntry) : VerifyOutcome :=
  if fileExists e.filename then
    if pyToLower (hashFn (absorbedBytes bufSize (contentOf e.filename))) = e.hash then
      .matched
    else .mismatched
  else .missingTarget

/-- All outcomes of one manifest's entry loop, in entry order; no entry stops
the loop, so every entry yields exactly one outcome. -/
def verifyEntries (fileExists : List Char → Bool) (contentOf : List Char → List Nat)
    (hashFn : List Nat → List Char) (bufSize : Nat) (entries : List HashEntry) :
    List VerifyOutcome :=
  entries.map (verifyEntry fileExists contentOf hashFn bufSize)

/-- The `success_count` / `fail_count` tally: matched bumps success, missing
targets and mismatches bump fail. -/
def summarize (outs : List VerifyOutcome) : Nat × Nat :=
  outs.foldl
    (fun sf o => match o with
      | .matched => (sf.1 + 1, sf.2)
      | _ => (sf.1, sf.2 + 1))
    (0, 0)

/-- The outer loop over discovered manifests, each carrying the digest
primitive inferred from its extension; counts accumulate across manifests and
no manifest stops the run. -/
def autoVerifyTotals (fileExists : List Char → Bool) (contentOf : List Char → List Nat)
    (bufSize : Nat) (manifests : List ((List Nat → List Char) × List HashEntry)) :
    Nat × Nat :=
  manifests.foldl
    (fun sf m =>
      let p := summarize (verifyEntries fileExists contentOf m.1 bufSize m.2)
      (sf.1 + p.1, sf.2 + p.2))
    (0, 0)

/-! ### Concurrent dispatch in `process_files` info mode (lines 450-474) -/

/-- The files submitted to the pool, in submission order: one
`calculate_file_hash` task per glob match of each pattern (non-recursive
branch, lines 462-465). -/
def infoTargets (globMatch : String → List String) (patterns : List String) :
    List String :=
  (patterns.map globMatch).flatten

/-- The (path, digest) pairs printed by the info-mode loop at line 467:
`for future, filepath in zip(concurrent.futures.as_completed(futures), files)`.
`completion` lists the indices of the submitted futures in the nondeterministic
order the workers finish them; the k-th future to complete is paired with the
k-th original input pattern, and `zip` truncates at the shorter list.
`hashOf t` is the digest result of the task submitted for target `t`. -/
def processInfoOutputs (globMatch : String → List String) (hashOf : String → String)
    (patterns : List String) (completion : List Nat) : List (String × String) :=
  let targets := infoTargets globMatch patterns
  ((completion.filterMap (fun i => targets[i]?)).zip patterns).map
    (fun pr => (pr.2, hashOf pr.1))

/-! ### Spec-side definitions (from the spec's words, for refutation) -/

/-- Modelled from the spec: grammar rule 3 says "split on first run of
whitespace, hash is the first token (case-normalized to lowercase), remainder
is the filename" — the remainder keeps its interior whitespace intact. -/
def specFirstRunRemainder (l : List Char) : List Char :=
  (l.dropWhile (fun c => !pyIsSpace c)).dropWhile pyIsSpace

/-- Modelled from the spec: the entry rule 3 predicts for a GNU-form line,
with the leading `*` of the remainder stripped into the binary marker. -/
def specGnuEntry (l : List Char) : HashEntry :=
  let hv := l.takeWhile (fun c => !pyIsSpace c)
  match specFirstRunRemainder l with
  | '*' :: rest => ⟨rest, pyToLower hv, true⟩
  | fn => ⟨fn, pyToLower hv, false⟩

/-- The characters a BSD-form manifest line puts after the algorithm token:
`(filename) = hash`. -/
def bsdRemainder (fn h : List Char) : List Char :=
  '(' :: (fn ++ (')' :: ' ' :: '=' :: ' ' :: h))

/-- A BSD-form manifest line `ALGO (filename) = hash` with single spaces. -/
def bsdLine (algo fn h : List Char) : List Char :=
  algo ++ (' ' :: bsdRemainder fn h)

/-- A concrete comparison of a candidate `f2` agreeing with the reference. -/
def sampleComparison : Comparison := ⟨"f2", [("MD5", "d4")], [("MD5", true)], []⟩

/-- The `compare_files` result for two files with equal MD5 digests. -/
def sampleResult : CompareResult := ⟨"f1", [("MD5", "d4")], [sampleComparison], true⟩

end HashPy

namespace HashPy

/-! ### Theorems -/

theorem chunksOfAux_flatten (n : Nat) (hn : 0 < n) :
    ∀ (fuel : Nat) (bs : List Nat), bs.length ≤ fuel →
      List.flatten (chunksOfAux fuel n bs) = bs := by
  intro fuel
  induction fuel with
  | zero =>
    intro bs h
    cases bs with
    | nil => simp [chunksOfAux]
    | cons b bs => simp at h
  | succ f ih =>
    intro bs h
    cases bs with
    | nil => simp [chunksOfAux]
    | cons b bs =>
      rw [chunksOfAux]
      rw [if_neg (Nat.pos_iff_ne_zero.mp hn)]
      rw [List.flatten_cons]
      rw [ih (bs.drop (n - 1)) (by simp at h ⊢; omega)]
      have hdrop : bs.drop (n - 1) = (b :: bs).drop n := by
        cases n with
        | zero => exact absurd rfl (Nat.pos_iff_ne_zero.mp hn)
        | succ m => simp
      rw [hdrop, List.take_append_drop]

/-- For a positive chunk size the read loop absorbs exactly the file bytes. -/
theorem absorbedBytes_eq (bufSize : Nat) (hn : 0 < bufSize) (content : List Nat) :
    absorbedBytes bufSize content = content :=
  chunksOfAux_flatten bufSize hn content.length content (Nat.le_refl _)

/-- Sanity: the reference MD5 test vector for the empty message. -/
theorem md5Hex_empty : MD5.md5Hex [] = "d41d8cd98f00b204e9800998ecf8427e" := by decide

/-- Sanity: the reference MD5 test vector for `"abc"`. -/
theorem md5Hex_abc :
    MD5.md5Hex ("abc".data.map Char.toNat) = "900150983cd24fb0d6963f7d28e17f72" := by
  decide

/-- C1: the info-mode loop pairs `as_completed(futures)` positionally with the
original input list, so with two single-match patterns whose workers finish in
the opposite order, the digest computed for `b.txt` is reported against the
path `a.txt` and vice versa: results are NOT correlated back to the path whose
file was actually hashed. -/
theorem c1_completion_order_misattribution :
    processInfoOutputs (fun p => [p]) (fun t => t ++ ".digest") ["a.txt", "b.txt"] [1, 0] =
      [("a.txt", "b.txt.digest"), ("b.txt", "a.txt.digest")] ∧
    ¬ ∀ pr ∈ processInfoOutputs (fun p => [p]) (fun t => t ++ ".digest")
        ["a.txt", "b.txt"] [1, 0], pr.2 = pr.1 ++ ".digest" := by
  decide

/-- C6: for a zero-length file the mmap branch is skipped (its guard requires
`file_size > 0`), the buffered loop reads no chunk, and `calculate_file_hash`
returns each enabled algorithm's digest of the empty input; for MD5 that
digest is the well-known constant. -/
theorem c6_empty_file_digests (cfg : PerfConfig) (algos : List (String × HashAlgo))
    (file : FileState) (h : file.content = []) :
    calculate_file_hash cfg algos file = .ok (algos.map fun p => (p.1, p.2.digest [])) ∧
    MD5.md5Hex [] = "d41d8cd98f00b204e9800998ecf8427e" := by
  constructor
  · simp [calculate_file_hash, h, absorbedBytes, chunksOf, chunksOfAux]
  · decide

/-- C6 witness: a concrete empty file, MD5 enabled, mmap configured on. -/
theorem c6_witness :
    calculate_file_hash ⟨true, 8388608⟩ [("MD5", ⟨MD5.md5Hex⟩)] ⟨[], true⟩ =
      .ok [("MD5", "d41d8cd98f00b204e9800998ecf8427e")] := by
  have h := c6_empty_file_digests ⟨true, 8388608⟩ [("MD5", ⟨MD5.md5Hex⟩)] ⟨[], true⟩ rfl
  simp [h.1, h.2]

/-- C3 counterexample: a one-byte file on which `mmap.mmap` raises, with
`use_mmap` configured: `calculate_file_hash` propagates the error (line 200
re-raises after logging) and returns no digests — there is no fallback to
buffered reads. -/
theorem c3_counterexample :
    calculate_file_hash ⟨true, 8388608⟩ [("MD5", ⟨MD5.md5Hex⟩)] ⟨[0], false⟩ =
      .error .ioError ∧
    ¬ ∃ r, calculate_file_hash ⟨true, 8388608⟩ [("MD5", ⟨MD5.md5Hex⟩)] ⟨[0], false⟩ =
      .ok r := by
  constructor
  · rfl
  · rintro ⟨r, hr⟩
    rw [show calculate_file_hash ⟨true, 8388608⟩ [("MD5", ⟨MD5.md5Hex⟩)] ⟨[0], false⟩ =
      .error .ioError from rfl] at hr
    exact Except.noConfusion hr

/-- C3 amended: buffered chunked reads serve only when `use_mmap` is off or
the file is empty; for a non-empty file with `use_mmap` on, a failing mmap
aborts the hash with the raised I/O error, and a succeeding mmap (or the
buffered path) returns the digests of the file's bytes. -/
theorem c3_amended (cfg : PerfConfig) (algos : List (String × HashAlgo)) (file : FileState) :
    (cfg.use_mmap = false ∨ file.content = [] →
      calculate_file_hash cfg algos file =
        .ok (algos.map fun p => (p.1, p.2.digest (absorbedBytes cfg.buffer_size file.content)))) ∧
    (cfg.use_mmap = true → file.content ≠ [] → file.mmapOk = false →
      calculate_file_hash cfg algos file = .error .ioError) ∧
    (cfg.use_mmap = true → file.mmapOk = true →
      calculate_file_hash cfg algos file =
        .ok (algos.map fun p => (p.1, p.2.digest (absorbedBytes cfg.buffer_size file.content)))) := by
  refine ⟨?_, ?_, ?_⟩
  · rintro (hm | he)
    · simp [calculate_file_hash, hm]
    · simp [calculate_file_hash, he]
  · intro hm hne hmm
    have hlen : 0 < file.content.length := List.length_pos.mpr hne
    simp [calculate_file_hash, hm, hmm, hlen]
  · intro hm hmm
    rcases Nat.eq_zero_or_pos file.content.length with hz | hp
    · simp [calculate_file_hash, hz]
    · simp [calculate_file_hash, hm, hmm, hp]

/-- C3 witness: with mmap disabled the buffered path hashes a one-byte file. -/
theorem c3_witness :
    calculate_file_hash ⟨false, 4⟩ [("MD5", ⟨MD5.md5Hex⟩)] ⟨[7], true⟩ =
      .ok [("MD5", MD5.md5Hex [7])] :=
  (c3_amended ⟨false, 4⟩ [("MD5", ⟨MD5.md5Hex⟩)] ⟨[7], true⟩).1 (Or.inl rfl)

/-- C4 counterexample: with MD5 and an unknown name FOO both enabled in the
configuration, `setup_algorithms` completes normally and returns an enabled
set containing only MD5 — the unavailable name is silently omitted, no
`UnsupportedAlgorithm` (or any) error is raised (the function's body contains
no raise at all). -/
theorem c4_counterexample :
    setup_algorithms ["md5", "sha1", "sha256"] [("MD5", true), ("FOO", true)] = ["MD5"] ∧
    "FOO" ∉ setup_algorithms ["md5", "sha1", "sha256"] [("MD5", true), ("FOO", true)] := by
  decide

/-- C4 amended: `setup_algorithms` never fails; a configured name ends up in
the enabled set exactly when its flag is true and `hashlib` exposes its
lowercase name — enabled names without an implementation are silently
dropped. -/
theorem c4_amended (hashlibAvailable : List String) (algoConfig : List (String × Bool))
    (a : String) :
    a ∈ setup_algorithms hashlibAvailable algoConfig ↔
      (a, true) ∈ algoConfig ∧ hashlibAvailable.contains (strLower a) = true := by
  unfold setup_algorithms
  rw [List.mem_filterMap]
  constructor
  · rintro ⟨p, hp, hf⟩
    by_cases hc : (p.2 && hashlibAvailable.contains (strLower p.1)) = true
    · rw [if_pos hc] at hf
      have hpa : p.1 = a := by injection hf
      obtain ⟨h2, hav⟩ : p.2 = true ∧ hashlibAvailable.contains (strLower p.1) = true := by
        simpa using hc
      subst hpa
      exact ⟨by rwa [show (p.1, true) = p from Prod.ext rfl h2.symm], hav⟩
    · rw [if_neg hc] at hf
      exact Option.noConfusion hf
  · rintro ⟨hmem, hav⟩
    refine ⟨(a, true), hmem, ?_⟩
    have hcond : ((true : Bool) && hashlibAvailable.contains (strLower a)) = true := by
      rw [hav]
      rfl
    rw [if_pos hcond]

/-- C7: a manifest whose content strips to exactly one non-blank line with no
whitespace is parsed as the bare-hash form: one entry, hash the line
lowercased, filename the manifest's own name with `os.path.splitext`'s
extension removed, binary marker false. -/
theorem c7_bare_hash_manifest (name : List Char) (raw : List (List Char)) (l : List Char)
    (hl : (raw.map pyStrip).filter (fun s => !s.isEmpty) = [l])
    (hw : ∀ c ∈ l, pyIsSpace c = false) :
    parse_hash_file name raw = [⟨splitextBase name, pyToLower l, false⟩] := by
  have hcs : containsSpace l = false := by
    cases h : containsSpace l with
    | false => rfl
    | true =>
      exfalso
      simp only [containsSpace, List.any_eq_true] at h
      obtain ⟨c, hc, hc2⟩ := h
      have h3 := hw c hc
      rw [show c = ' ' from by simpa using hc2] at h3
      simp [pyIsSpace] at h3
  simp only [parse_hash_file]
  rw [hl]
  simp [hcs]

/-- C7 witness: the spec's own example, `data.bin.sha256` holding one bare
hash, yields target filename `data.bin`. -/
theorem c7_witness :
    parse_hash_file "data.bin.sha256".data ["d41d8cd98f00b204e9800998ecf8427e".data] =
      [⟨"data.bin".data, "d41d8cd98f00b204e9800998ecf8427e".data, false⟩] :=
  c7_bare_hash_manifest "data.bin.sha256".data ["d41d8cd98f00b204e9800998ecf8427e".data]
    "d41d8cd98f00b204e9800998ecf8427e".data (by decide) (by decide)

theorem pySplitAux_cons_space (rest : List Char) :
    ∀ (w acc : List Char), (∀ c ∈ w, pyIsSpace c = false) → acc.reverse ++ w ≠ [] →
      pySplitAux (w ++ ' ' :: rest) acc = (acc.reverse ++ w) :: pySplitAux rest [] := by
  intro w
  induction w with
  | nil =>
    intro acc _ hne
    have hacc : acc.isEmpty = false := by
      cases acc with
      | nil => simp at hne
      | cons x xs => rfl
    simp [pySplitAux, pyIsSpace, hacc]
  | cons c w ih =>
    intro acc hw hne
    have hc : pyIsSpace c = false := hw c (List.mem_cons_self c w)
    rw [List.cons_append]
    simp only [pySplitAux, hc]
    rw [ih (c :: acc) (fun d hd => hw d (List.mem_cons_of_mem c hd)) (by simp)]
    simp

theorem pySplitAux_last_word :
    ∀ (w acc : List Char), (∀ c ∈ w, pyIsSpace c = false) → acc.reverse ++ w ≠ [] →
      pySplitAux w acc = [acc.reverse ++ w] := by
  intro w
  induction w with
  | nil =>
    intro acc _ hne
    have hacc : acc.isEmpty = false := by
      cases acc with
      | nil => simp at hne
      | cons x xs => rfl
    simp [pySplitAux, hacc]
  | cons c w ih =>
    intro acc hw hne
    have hc : pyIsSpace c = false := hw c (List.mem_cons_self c w)
    simp only [pySplitAux, hc]
    rw [ih (c :: acc) (fun d hd => hw d (List.mem_cons_of_mem c hd)) (by simp)]
    simp

/-- `split()` peels one whitespace-free word before a space. -/
theorem pySplit_word_cons (w rest : List Char)
    (hw : ∀ c ∈ w, pyIsSpace c = false) (hne : w ≠ []) :
    pySplit (w ++ ' ' :: rest) = w :: pySplit rest := by
  have h := pySplitAux_cons_space rest w [] hw (by simpa using hne)
  simpa [pySplit] using h

/-- `split()` on a single whitespace-free word. -/
theorem pySplit_word_only (w : List Char)
    (hw : ∀ c ∈ w, pyIsSpace c = false) (hne : w ≠ []) :
    pySplit w = [w] := by
  have h := pySplitAux_last_word w [] hw (by simpa using hne)
  simpa [pySplit] using h

/-- `' '.join` of three pieces. -/
theorem intercalate_space_three (a b c : List Char) :
    List.intercalate [' '] [a, b, c] = a ++ ' ' :: b ++ ' ' :: c := by
  simp [List.intercalate, List.intersperse]

/-- `' '.join` of one piece. -/
theorem intercalate_space_one (a : List Char) : List.intercalate [' '] [a] = a := by
  simp [List.intercalate, List.intersperse]

/-- Reduction of `parse_hash_file` on a manifest that strips to exactly one
non-blank line. -/
theorem parse_single (name : List Char) (raw : List (List Char)) (l : List Char)
    (hl : (raw.map pyStrip).filter (fun s => !s.isEmpty) = [l]) :
    parse_hash_file name raw =
      if containsSpace l then [gnuParseLine l]
      else [⟨splitextBase name, pyToLower l, false⟩] := by
  simp only [parse_hash_file]
  rw [hl]

/-- `split()` of a single-space BSD-form line: four tokens. -/
theorem pySplit_bsd_line (algo fn h : List Char)
    (halgo : ∀ c ∈ algo, pyIsSpace c = false) (hane : algo ≠ [])
    (hfn : ∀ c ∈ fn, pyIsSpace c = false)
    (hh : ∀ c ∈ h, pyIsSpace c = false) (hhne : h ≠ []) :
    pySplit (bsdLine algo fn h) = [algo, '(' :: (fn ++ [')']), ['='], h] := by
  have hw2 : ∀ c ∈ '(' :: (fn ++ [')']), pyIsSpace c = false := by
    intro c hc
    rcases List.mem_cons.mp hc with hc | hc
    · subst hc; rfl
    · rcases List.mem_append.mp hc with hc | hc
      · exact hfn c hc
      · rw [show c = ')' from by simpa using hc]; rfl
  unfold bsdLine
  rw [pySplit_word_cons algo _ halgo hane]
  unfold bsdRemainder
  rw [show ('(' :: (fn ++ (')' :: ' ' :: '=' :: ' ' :: h))) =
    (('(' :: (fn ++ [')'])) ++ (' ' :: '=' :: ' ' :: h)) from by simp]
  rw [pySplit_word_cons _ _ hw2 (by simp)]
  rw [show ('=' :: ' ' :: h) = (['='] ++ ' ' :: h) from rfl]
  rw [pySplit_word_cons ['='] h (by intro c hc; rw [show c = '=' from by simpa using hc]; rfl)
    (by simp)]
  rw [pySplit_word_only h hh hhne]

/-- A rejoined filename that does not start with `*` passes through. -/
theorem stripStar_ne_star (fn : List Char) (hfn : ∀ rest, fn ≠ '*' :: rest) :
    stripStar fn = (fn, false) := by
  unfold stripStar
  split
  · rename_i r
    exact absurd rfl (hfn r)
  · rfl

/-- The per-line GNU parse in terms of its `split()` tokens. -/
theorem gnuParseLine_eq (line hv : List Char) (rest : List (List Char))
    (hsplit : pySplit line = hv :: rest) :
    gnuParseLine line =
      ⟨(stripStar (List.intercalate [' '] rest)).1, pyToLower hv,
       (stripStar (List.intercalate [' '] rest)).2⟩ := by
  unfold gnuParseLine
  rw [hsplit]

/-- C2 amended: there is no BSD branch in `parse_hash_file`; a single BSD-form
line `ALGO (filename) = hash` (single spaces, whitespace-free tokens) is
parsed by the GNU rule instead: the reported hash is the algorithm token
lowercased, the reported filename is the rejoined remainder
`(filename) = hash`, and the binary marker is false. -/
theorem c2_amended (name : List Char) (raw : List (List Char)) (algo fn h : List Char)
    (hl : (raw.map pyStrip).filter (fun s => !s.isEmpty) = [bsdLine algo fn h])
    (halgo : ∀ c ∈ algo, pyIsSpace c = false) (hane : algo ≠ [])
    (hfn : ∀ c ∈ fn, pyIsSpace c = false)
    (hh : ∀ c ∈ h, pyIsSpace c = false) (hhne : h ≠ []) :
    parse_hash_file name raw = [⟨bsdRemainder fn h, pyToLower algo, false⟩] := by
  have hcs : containsSpace (bsdLine algo fn h) = true := by
    simp [containsSpace, bsdLine]
  rw [parse_single name raw _ hl]
  rw [if_pos hcs]
  rw [gnuParseLine_eq _ algo [('(' :: (fn ++ [')'])), ['='], h]
    (pySplit_bsd_line algo fn h halgo hane hfn hh hhne)]
  rw [intercalate_space_three]
  rw [stripStar_ne_star _ (by
    intro r hr
    rw [List.cons_append] at hr
    have h2 : '(' = '*' := by injection hr
    exact absurd h2 (by decide))]
  simp [bsdRemainder]

/-- C2 witness: the spec's own BSD example line. -/
theorem c2_witness :
    parse_hash_file "bsd_format.md5".data
        ["MD5 (test.txt) = d41d8cd98f00b204e9800998ecf8427e".data] =
      [⟨"(test.txt) = d41d8cd98f00b204e9800998ecf8427e".data, "md5".data, false⟩] :=
  c2_amended "bsd_format.md5".data
    ["MD5 (test.txt) = d41d8cd98f00b204e9800998ecf8427e".data] "MD5".data "test.txt".data
    "d41d8cd98f00b204e9800998ecf8427e".data
    (by decide) (by decide) (by decide) (by decide) (by decide) (by decide)

/-- C9 amended: a sole non-blank line is parsed by the GNU rule exactly when
it contains a space character; the line is split on every whitespace run, the
first token lowercased is the hash, and the filename is the remaining tokens
rejoined with single spaces (interior whitespace runs collapse), with a
leading `*` stripped into the binary marker. -/
theorem c9_amended (name : List Char) (raw : List (List Char)) (l hv : List Char)
    (rest : List (List Char))
    (hl : (raw.map pyStrip).filter (fun s => !s.isEmpty) = [l])
    (hs : containsSpace l = true)
    (hsplit : pySplit l = hv :: rest) :
    parse_hash_file name raw =
      [⟨(stripStar (List.intercalate [' '] rest)).1, pyToLower hv,
        (stripStar (List.intercalate [' '] rest)).2⟩] := by
  rw [parse_single name raw l hl]
  rw [if_pos hs]
  rw [gnuParseLine_eq l hv rest hsplit]

/-- C9 witness: the spec's own GNU example line with the binary marker. -/
theorem c9_witness :
    parse_hash_file "gnu_single.md5".data
        ["d41d8cd98f00b204e9800998ecf8427e *test.txt".data] =
      [⟨"test.txt".data, "d41d8cd98f00b204e9800998ecf8427e".data, true⟩] :=
  c9_amended "gnu_single.md5".data ["d41d8cd98f00b204e9800998ecf8427e *test.txt".data]
    "d41d8cd98f00b204e9800998ecf8427e *test.txt".data
    "d41d8cd98f00b204e9800998ecf8427e".data ["*test.txt".data]
    (by decide) (by decide) (by decide)

/-- C2 counterexample: `parse_hash_file` has no BSD branch; the BSD line from
the claim is parsed by the GNU rule, yielding hash `md5` (the algorithm token
lowercased) and the rejoined remainder as the filename — not filename
`test.txt` with the hash after the equals sign. -/
theorem c2_counterexample :
    parse_hash_file "bsd_format.md5".data
        ["MD5 (test.txt) = d41d8cd98f00b204e9800998ecf8427e".data] ≠
      [⟨"test.txt".data, "d41d8cd98f00b204e9800998ecf8427e".data, false⟩] ∧
    parse_hash_file "bsd_format.md5".data
        ["MD5 (test.txt) = d41d8cd98f00b204e9800998ecf8427e".data] =
      [⟨"(test.txt) = d41d8cd98f00b204e9800998ecf8427e".data, "md5".data, false⟩] := by
  decide

/-- C9 counterexample: two failures of the claim as stated.  A line whose
filename part contains a double space is rejoined with single spaces (the
code splits on every whitespace run and `' '.join`s, rather than keeping the
remainder after the first run); and a single line whose only whitespace is a
tab is not treated as a GNU line at all (the branch tests `' ' in line`), but
as a bare hash. -/
theorem c9_counterexample :
    (parse_hash_file "t.md5".data ["d41d8cd98f00b204e9800998ecf8427e a  b".data] ≠
        [specGnuEntry "d41d8cd98f00b204e9800998ecf8427e a  b".data] ∧
      specGnuEntry "d41d8cd98f00b204e9800998ecf8427e a  b".data =
        ⟨"a  b".data, "d41d8cd98f00b204e9800998ecf8427e".data, false⟩ ∧
      parse_hash_file "t.md5".data ["d41d8cd98f00b204e9800998ecf8427e a  b".data] =
        [⟨"a b".data, "d41d8cd98f00b204e9800998ecf8427e".data, false⟩]) ∧
    (parse_hash_file "t.md5".data ["aaa\tbbb".data] ≠
        [specGnuEntry "aaa\tbbb".data] ∧
      parse_hash_file "t.md5".data ["aaa\tbbb".data] =
        [⟨"t".data, "aaa\tbbb".data, false⟩]) := by
  decide

theorem foldl_matches_flag (ms : List (String × Bool)) :
    ∀ b : Bool, ms.foldl (fun b2 p => if p.2 then b2 else false) b =
      (b && ms.all (fun p => p.2)) := by
  induction ms with
  | nil => intro b; simp
  | cons m ms ih =>
    intro b
    simp only [List.foldl_cons, List.all_cons]
    rw [ih]
    cases hm : m.2 <;> simp [hm, Bool.and_assoc]

theorem foldl_allmatch_flag (cs : List Comparison) :
    ∀ b : Bool,
      cs.foldl (fun b c => c.algoMatches.foldl (fun b2 p => if p.2 then b2 else false) b) b =
      (b && cs.all (fun c => c.algoMatches.all (fun p => p.2))) := by
  induction cs with
  | nil => intro b; simp
  | cons c cs ih =>
    intro b
    simp only [List.foldl_cons, List.all_cons]
    rw [foldl_matches_flag, ih, Bool.and_assoc]

/-- C8: whenever `compare_files` returns a structured result, its `all_match`
flag is true exactly when every per-algorithm entry of every candidate's
matches map is true — the flag starts true and is set false at each
mismatching algorithm while the maps are built. -/
theorem c8_all_match_iff (ignoreErrors : Bool) (algos : List String)
    (detailFormat : String → String → String → String)
    (globMatch : String → List String) (hashOf : String → Option (String → String))
    (files : List String) (r : CompareResult)
    (h : compare_files ignoreErrors algos detailFormat globMatch hashOf files = .ok r) :
    r.all_match = true ↔
      ∀ c ∈ r.comparisons, ∀ p ∈ c.algoMatches, p.2 = true := by
  simp only [compare_files] at h
  split at h
  · exact Except.noConfusion h
  · split at h
    · exact Except.noConfusion h
    · split at h
      · exact Except.noConfusion h
      · cases r with
        | mk rf rh comps am =>
          injection h with h2
          cases h2
          rw [foldl_allmatch_flag]
          simp only [Bool.true_and, List.all_eq_true]

/-- C8 witness: two files with equal MD5 digests, a successful run. -/
theorem c8_witness :
    sampleResult.all_match = true ↔
      ∀ c ∈ sampleResult.comparisons, ∀ p ∈ c.algoMatches, p.2 = true :=
  c8_all_match_iff false ["MD5"] (fun _ _ _ => "mismatch") (fun p => [p])
    (fun _ => some (fun _ => "d4")) ["f1", "f2"] sampleResult rfl

theorem computeHashes_ignore (hashOf : String → Option (String → String)) :
    ∀ fs : List String, computeHashes true hashOf fs =
      .ok (fs.filterMap (fun f => (hashOf f).map (fun d => (f, d)))) := by
  intro fs
  induction fs with
  | nil => rfl
  | cons f fs ih =>
    simp only [computeHashes, List.filterMap_cons]
    cases hf : hashOf f with
    | some d => simp [ih, Except.map]
    | none => simp [ih]

theorem lookupHash_filterMap_none (hashOf : String → Option (String → String))
    (f : String) (hf : hashOf f = none) :
    ∀ fs : List String,
      lookupHash (fs.filterMap (fun g => (hashOf g).map (fun d => (g, d)))) f = none := by
  intro fs
  induction fs with
  | nil => rfl
  | cons g gs ih =>
    simp only [List.filterMap_cons]
    cases hg : hashOf g with
    | none => simpa using ih
    | some d =>
      have hgf : (g == f) = false := by
        cases hq : g == f with
        | false => rfl
        | true =>
          exfalso
          have hgfeq : g = f := by simpa using hq
          rw [hgfeq, hf] at hg
          exact Option.noConfusion hg
      simpa [lookupHash, hgf] using ih

/-- C10: with `ignore_errors` on, at least two resolved paths, and hashing of
the first (reference) path failing, `compare_files` does not produce a
structured result: the reference file is absent from the computed hash dict,
and the `hashes[ref_file]` access at line 235 raises an uncontained
`KeyError`. -/
theorem c10_ref_hash_failure_keyerror (algos : List String)
    (detailFormat : String → String → String → String)
    (globMatch : String → List String) (hashOf : String → Option (String → String))
    (files : List String)
    (h2 : 2 ≤ (expandGlobs globMatch files).length)
    (href : hashOf ((expandGlobs globMatch files).headD "") = none) :
    compare_files true algos detailFormat globMatch hashOf files =
      .error (.keyError ((expandGlobs globMatch files).headD "")) := by
  simp only [compare_files]
  rw [if_neg (by omega)]
  simp only [computeHashes_ignore hashOf]
  rw [lookupHash_filterMap_none hashOf _ href]

/-- C10 witness: two paths, hashing of the first raising. -/
theorem c10_witness :
    compare_files true ["MD5"] (fun _ _ _ => "mismatch") (fun p => [p])
      (fun f => if f = "x" then none else some (fun _ => "aa")) ["x", "y"] =
      .error (.keyError "x") :=
  c10_ref_hash_failure_keyerror ["MD5"] (fun _ _ _ => "mismatch") (fun p => [p])
    (fun f => if f = "x" then none else some (fun _ => "aa")) ["x", "y"]
    (by decide) rfl

theorem summarize_eq (outs : List VerifyOutcome) :
    summarize outs = (outs.countP (fun o => o == VerifyOutcome.matched),
                      outs.countP (fun o => !(o == VerifyOutcome.matched))) := by
  suffices h : ∀ sf : Nat × Nat,
      outs.foldl (fun sf o => match o with
        | .matched => (sf.1 + 1, sf.2)
        | _ => (sf.1, sf.2 + 1)) sf =
      (sf.1 + outs.countP (fun o => o == VerifyOutcome.matched),
       sf.2 + outs.countP (fun o => !(o == VerifyOutcome.matched))) by
    simpa [summarize] using h (0, 0)
  induction outs with
  | nil => intro sf; simp
  | cons o os ih =>
    intro sf
    cases o <;> simp [List.countP_cons, ih] <;> omega

theorem autoVerifyTotals_eq (fileExists : List Char → Bool)
    (contentOf : List Char → List Nat) (bufSize : Nat)
    (manifests : List ((List Nat → List Char) × List HashEntry)) :
    autoVerifyTotals fileExists contentOf bufSize manifests =
      ((manifests.map
          (fun m => (summarize (verifyEntries fileExists contentOf m.1 bufSize m.2)).1)).sum,
       (manifests.map
          (fun m => (summarize (verifyEntries fileExists contentOf m.1 bufSize m.2)).2)).sum) := by
  suffices h : ∀ sf : Nat × Nat,
      manifests.foldl (fun sf m =>
        let p := summarize (verifyEntries fileExists contentOf m.1 bufSize m.2)
        (sf.1 + p.1, sf.2 + p.2)) sf =
      (sf.1 + (manifests.map
          (fun m => (summarize (verifyEntries fileExists contentOf m.1 bufSize m.2)).1)).sum,
       sf.2 + (manifests.map
          (fun m => (summarize (verifyEntries fileExists contentOf m.1 bufSize m.2)).2)).sum) by
    simpa [autoVerifyTotals] using h (0, 0)
  induction manifests with
  | nil => intro sf; simp
  | cons m ms ih =>
    intro sf
    simp [ih]
    omega

/-- C5: a manifest entry whose target file does not exist yields the
missing-target outcome; the entry loop maps every entry to exactly one
outcome (siblings are still processed, nothing is raised), and the run's
`fail_count` — accumulated across all manifests — counts it, so it is at
least one. -/
theorem c5_missing_target (fileExists : List Char → Bool)
    (contentOf : List Char → List Nat) (bufSize : Nat)
    (manifests : List ((List Nat → List Char) × List HashEntry))
    (m i : Nat) (fn : List Nat → List Char) (entries : List HashEntry) (e : HashEntry)
    (hm : manifests[m]? = some (fn, entries))
    (he : entries[i]? = some e)
    (hmiss : fileExists e.filename = false) :
    verifyEntry fileExists contentOf fn bufSize e = .missingTarget ∧
    (verifyEntries fileExists contentOf fn bufSize entries).length = entries.length ∧
    (verifyEntries fileExists contentOf fn bufSize entries)[i]? =
      some VerifyOutcome.missingTarget ∧
    1 ≤ (autoVerifyTotals fileExists contentOf bufSize manifests).2 := by
  have h1 : verifyEntry fileExists contentOf fn bufSize e = .missingTarget := by
    simp [verifyEntry, hmiss]
  refine ⟨h1, by simp [verifyEntries], ?_, ?_⟩
  · rw [verifyEntries, List.getElem?_map, he]
    simp [h1]
  · have hmem : (fn, entries) ∈ manifests := by
      obtain ⟨hlt, hg⟩ := List.getElem?_eq_some.mp hm
      exact hg ▸ List.getElem_mem hlt
    have he2 : e ∈ entries := by
      obtain ⟨hlt, hg⟩ := List.getElem?_eq_some.mp he
      exact hg ▸ List.getElem_mem hlt
    have houts : VerifyOutcome.missingTarget ∈
        verifyEntries fileExists contentOf fn bufSize entries := by
      rw [verifyEntries]
      exact h1 ▸ List.mem_map_of_mem _ he2
    have hfail : 1 ≤ (summarize (verifyEntries fileExists contentOf fn bufSize entries)).2 := by
      rw [summarize_eq]
      exact List.countP_pos_iff.mpr ⟨_, houts, by decide⟩
    rw [autoVerifyTotals_eq]
    calc (1 : Nat) ≤ (summarize (verifyEntries fileExists contentOf fn bufSize entries)).2 :=
        hfail
      _ ≤ (manifests.map
            (fun m => (summarize (verifyEntries fileExists contentOf m.1 bufSize m.2)).2)).sum :=
        List.single_le_sum (fun x _ => Nat.zero_le x) _ (List.mem_map_of_mem _ hmem)

/-- C5 witness: one manifest with one entry whose target is absent. -/
theorem c5_witness :
    verifyEntry (fun _ => false) (fun _ => []) (fun _ => []) 4
      ⟨"a.txt".data, "00".data, false⟩ = .missingTarget ∧
    (verifyEntries (fun _ => false) (fun _ => []) (fun _ => []) 4
      [⟨"a.txt".data, "00".data, false⟩]).length =
      ([⟨"a.txt".data, "00".data, false⟩] : List HashEntry).length ∧
    (verifyEntries (fun _ => false) (fun _ => []) (fun _ => []) 4
      [⟨"a.txt".data, "00".data, false⟩])[0]? = some VerifyOutcome.missingTarget ∧
    1 ≤ (autoVerifyTotals (fun _ => false) (fun _ => []) 4
      [((fun _ => []), [⟨"a.txt".data, "00".data, false⟩])]).2 :=
  c5_missing_target (fun _ => false) (fun _ => []) 4
    [((fun _ => []), [⟨"a.txt".data, "00".data, false⟩])] 0 0 (fun _ => [])
    [⟨"a.txt".data, "00".data, false⟩] ⟨"a.txt".data, "00".data, false⟩ rfl rfl rfl

end HashPy
